import Mathlib

/-!
Verification development for the Hashpipe status-buffer access layer
(`src/ext/rb_hashpipe.c`): the attach/detach lifecycle of a `Hashpipe::Status`
handle, the lock coordination entry points, and the typed get/put/delete
operations over the fixed-width card codec.

The binding functions (`rb_hps_attach`, `rb_hps_detach`, `rb_hps_lock`,
`rb_hps_unlock`, `rb_hps_clear_bang`, `rb_hps_buf`, `rb_hps_length`,
`rb_hps_hget*`, `rb_hps_hput*`, `rb_hps_delete`) are embedded directly from
the C source.  The header codec they call (`hget*`, `hput*`, `hdel`, `hgets`,
`hputs` from the external fitshead/hashpipe library) is not part of the
repository source tree, so it is modelled from the specification's
HeaderCodec section (fixed-width card records, linear key scan,
overwrite-in-place or append-before-END, base-10 ASCII integer encoding,
quoted/escaped string encoding, fixed-precision decimal floats represented by
their integer significand at the format's fixed scale).
-/

/-- Fixed record width per card (the legacy `HASHPIPE_STATUS_RECORD_SIZE`
constant, 80 bytes). -/
def RECORD_SIZE : Nat := 80

/-- Width of a card's fixed value field, modelled from the spec's
"fixed-width value field" inside an 80-byte record. -/
def valueWidth : Nat := 70

/-- The single-quote character used by the card format's string convention. -/
def quoteChar : Char := Char.ofNat 39

/-- The ASCII minus sign. -/
def minusChar : Char := Char.ofNat 45

/-- ASCII digit character for a digit value `d < 10`. -/
def digitChar (d : Nat) : Char := Char.ofNat (48 + d)

/-- Test whether a character is an ASCII digit. -/
def isDigitCh (c : Char) : Bool := decide (48 ≤ c.toNat) && decide (c.toNat ≤ 57)

/-- Numeric value of an ASCII digit character. -/
def digitVal (c : Char) : Nat := c.toNat - 48

/-- Base-10 ASCII rendering of a natural number, fuel-indexed so the
recursion is structural; `natEnc` supplies sufficient fuel. -/
def natEncAux : Nat → Nat → List Char
  | 0, _ => []
  | fuel + 1, n =>
    if n < 10 then [digitChar n]
    else natEncAux fuel (n / 10) ++ [digitChar (n % 10)]

/-- Modelled from the spec: "integers are base-10 ASCII within the value
field" — the digit string of a natural number. -/
def natEnc (n : Nat) : List Char := natEncAux (n + 1) n

/-- Fold a digit string into the natural number it denotes, starting from
accumulator `a`. -/
def natDecFrom (a : Nat) (l : List Char) : Nat :=
  l.foldl (fun acc c => 10 * acc + digitVal c) a

/-- Parse a base-10 ASCII digit string; `none` when empty or when any
character is not a digit (a structurally malformed field). -/
def natDec (l : List Char) : Option Nat :=
  if l ≠ [] ∧ l.all isDigitCh = true then some (natDecFrom 0 l) else none

/-- Base-10 ASCII rendering of an integer: optional minus sign then digits. -/
def intEnc (v : Int) : List Char :=
  if v < 0 then minusChar :: natEnc v.natAbs else natEnc v.natAbs

/-- Parse an optionally-signed base-10 ASCII integer; `none` on a malformed
field. -/
def intDec (l : List Char) : Option Int :=
  match l with
  | [] => none
  | c :: rest =>
    if c = minusChar then (natDec rest).map (fun n => -(n : Int))
    else (natDec (c :: rest)).map (fun n => (n : Int))

theorem digitVal_digitChar {d : Nat} (h : d < 10) : digitVal (digitChar d) = d := by
  interval_cases d <;> decide

theorem isDigitCh_digitChar {d : Nat} (h : d < 10) : isDigitCh (digitChar d) = true := by
  interval_cases d <;> decide

theorem digitChar_ne_minus {d : Nat} (h : d < 10) : digitChar d ≠ minusChar := by
  interval_cases d <;> decide

theorem natEncAux_ne_nil {fuel n : Nat} (h : n < fuel) : natEncAux fuel n ≠ [] := by
  cases fuel with
  | zero => omega
  | succ f =>
    unfold natEncAux
    by_cases h10 : n < 10
    · simp [h10]
    · simp [h10]

theorem natEncAux_all_digits {fuel : Nat} : ∀ {n : Nat}, n < fuel →
    (natEncAux fuel n).all isDigitCh = true := by
  induction fuel with
  | zero => intro n h; omega
  | succ f ih =>
    intro n h
    unfold natEncAux
    by_cases h10 : n < 10
    · simp [h10, isDigitCh_digitChar h10]
    · have hdiv : n / 10 < f := by omega
      have hmod : n % 10 < 10 := by omega
      simp [h10, List.all_append, ih hdiv, isDigitCh_digitChar hmod]

theorem natDecFrom_append (a : Nat) (l1 l2 : List Char) :
    natDecFrom a (l1 ++ l2) = natDecFrom (natDecFrom a l1) l2 := by
  simp [natDecFrom, List.foldl_append]

theorem natDecFrom_natEncAux {fuel : Nat} : ∀ {n : Nat} (a : Nat), n < fuel →
    natDecFrom a (natEncAux fuel n) =
      a * 10 ^ (natEncAux fuel n).length + n := by
  induction fuel with
  | zero => intro n a h; omega
  | succ f ih =>
    intro n a h
    unfold natEncAux
    by_cases h10 : n < 10
    · simp [h10, natDecFrom, digitVal_digitChar h10]
      omega
    · have hdiv : n / 10 < f := by omega
      have hmod : n % 10 < 10 := by omega
      simp only [if_neg h10]
      rw [natDecFrom_append, ih a hdiv]
      simp [natDecFrom, digitVal_digitChar hmod, List.length_append,
        pow_succ]
      ring_nf
      omega

theorem natDec_natEnc (n : Nat) : natDec (natEnc n) = some n := by
  have hne : natEnc n ≠ [] := natEncAux_ne_nil (Nat.lt_succ_self n)
  have hall : (natEnc n).all isDigitCh = true :=
    natEncAux_all_digits (Nat.lt_succ_self n)
  have hval : natDecFrom 0 (natEnc n) = n := by
    have := @natDecFrom_natEncAux (n + 1) n 0 (Nat.lt_succ_self n)
    simpa [natEnc] using this
  simp [natDec, hne, hall, hval]

theorem natEnc_head_digit (n : Nat) :
    ∃ c rest, natEnc n = c :: rest ∧ isDigitCh c = true := by
  have hne : natEnc n ≠ [] := natEncAux_ne_nil (Nat.lt_succ_self n)
  have hall : (natEnc n).all isDigitCh = true :=
    natEncAux_all_digits (Nat.lt_succ_self n)
  cases h : natEnc n with
  | nil => exact absurd h hne
  | cons c rest =>
    refine ⟨c, rest, rfl, ?_⟩
    rw [h] at hall
    simp [List.all_cons] at hall
    exact hall.1

theorem isDigitCh_ne_minus {c : Char} (h : isDigitCh c = true) : c ≠ minusChar := by
  intro hc
  subst hc
  simp [isDigitCh, minusChar] at h

theorem intDec_intEnc (v : Int) : intDec (intEnc v) = some v := by
  by_cases hv : v < 0
  · have h1 : intEnc v = minusChar :: natEnc v.natAbs := by
      simp [intEnc, hv]
    rw [h1]
    show (if minusChar = minusChar then
        (natDec (natEnc v.natAbs)).map (fun n => -(n : Int))
      else (natDec (minusChar :: natEnc v.natAbs)).map (fun n => (n : Int)))
        = some v
    rw [if_pos rfl, natDec_natEnc]
    show some (-(v.natAbs : Int)) = some v
    congr 1
    omega
  · obtain ⟨c, rest, henc, hdig⟩ := natEnc_head_digit v.natAbs
    have hcm : ¬(c = minusChar) := isDigitCh_ne_minus hdig
    have h1 : intEnc v = c :: rest := by
      simp [intEnc, hv, henc]
    rw [h1]
    show (if c = minusChar then (natDec rest).map (fun n => -(n : Int))
      else (natDec (c :: rest)).map (fun n => (n : Int))) = some v
    rw [if_neg hcm, ← henc, natDec_natEnc]
    show some ((v.natAbs : Int)) = some v
    congr 1
    omega

/-- Escape a string body per the card format's string convention: each
embedded quote is doubled. -/
def esc : List Char → List Char
  | [] => []
  | c :: cs => if c = quoteChar then quoteChar :: quoteChar :: esc cs else c :: esc cs

/-- Undo `esc`: collapse each doubled quote. -/
def unesc : List Char → List Char
  | [] => []
  | [c] => [c]
  | c :: d :: cs =>
    if c = quoteChar ∧ d = quoteChar then quoteChar :: unesc cs
    else c :: unesc (d :: cs)

/-- Modelled from the spec: "strings are quoted and escaped per the card
format's string convention" — the value field of a string card. -/
def strEnc (s : String) : List Char := quoteChar :: (esc s.data ++ [quoteChar])

/-- Decode a quoted/escaped string value field; `none` when the field is not
a well-formed quoted string. -/
def strDec (l : List Char) : Option String :=
  match l with
  | [] => none
  | c :: rest =>
    if c = quoteChar then
      match rest.reverse with
      | [] => none
      | d :: mid => if d = quoteChar then some (String.mk (unesc mid.reverse)) else none
    else none

theorem unesc_double_quote (cs : List Char) :
    unesc (quoteChar :: quoteChar :: cs) = quoteChar :: unesc cs := by
  simp [unesc]

theorem unesc_cons_of_ne {c : Char} (hc : c ≠ quoteChar) (l : List Char) :
    unesc (c :: l) = c :: unesc l := by
  cases l with
  | nil => rfl
  | cons d cs =>
    show (if c = quoteChar ∧ d = quoteChar then quoteChar :: unesc cs
      else c :: unesc (d :: cs)) = c :: unesc (d :: cs)
    rw [if_neg]
    intro hcd
    exact hc hcd.1

theorem unesc_esc : ∀ l : List Char, unesc (esc l) = l := by
  intro l
  induction l with
  | nil => rfl
  | cons c cs ih =>
    by_cases hc : c = quoteChar
    · subst hc
      have he : esc (quoteChar :: cs) = quoteChar :: quoteChar :: esc cs := by
        simp [esc]
      rw [he, unesc_double_quote, ih]
    · have he : esc (c :: cs) = c :: esc cs := by
        simp [esc, hc]
      rw [he, unesc_cons_of_ne hc, ih]

theorem length_le_esc : ∀ l : List Char, l.length ≤ (esc l).length := by
  intro l
  induction l with
  | nil => simp [esc]
  | cons c cs ih =>
    by_cases hc : c = quoteChar
    · simp only [esc, if_pos hc, List.length_cons]
      omega
    · simp only [esc, if_neg hc, List.length_cons]
      omega

theorem strDec_strEnc (s : String) : strDec (strEnc s) = some s := by
  show (if quoteChar = quoteChar then
      match (esc s.data ++ [quoteChar]).reverse with
      | [] => none
      | d :: mid => if d = quoteChar then some (String.mk (unesc mid.reverse)) else none
    else none) = some s
  rw [if_pos rfl]
  have hrev : (esc s.data ++ [quoteChar]).reverse = quoteChar :: (esc s.data).reverse := by
    simp
  rw [hrev]
  simp only [if_pos rfl, List.reverse_reverse, unesc_esc]
  rfl

/-- Best-effort string rendering of a raw value field as returned by the
codec's `get_string` scan: a well-formed quoted string is unquoted and
unescaped, any other field is rendered as its own text. -/
def strRender (f : List Char) : List Char :=
  match strDec f with
  | some s => s.data
  | none => f

theorem strRender_strEnc (s : String) : strRender (strEnc s) = s.data := by
  simp [strRender, strDec_strEnc]

theorem take_of_le_length : ∀ (l : List Char) (n : Nat), l.length ≤ n → l.take n = l := by
  intro l
  induction l with
  | nil => intro n _; simp
  | cons c cs ih =>
    intro n hn
    cases n with
    | zero => simp at hn
    | succ m =>
      simp only [List.take_succ_cons]
      rw [ih m (by simpa using hn)]

/-- One fixed-width card record: a key and the ASCII text of its fixed-width
value field.  (The optional comment field is not semantically load-bearing
and does not affect any operation modelled here.) -/
structure Card where
  key : String
  field : List Char
deriving DecidableEq, Repr

/-- The header buffer: the live card records before the END card, packed
from offset 0, together with the buffer's fixed total capacity counted in
card slots (the END card occupies one slot).  Never resized at runtime. -/
structure HBuf where
  cards : List Card
  capacity : Nat
deriving DecidableEq, Repr

/-- Codec-level error: the only failure mode of `put`. -/
inductive HErr where
  | CapacityExceeded
deriving DecidableEq, Repr

/-- Linear scan from offset 0 for the first card whose key matches. -/
def findCard (key : String) : List Card → Option Card
  | [] => none
  | c :: cs => if c.key = key then some c else findCard key cs

/-- Whether some live card carries `key`. -/
def hasKey (key : String) : List Card → Bool
  | [] => false
  | c :: cs => c.key = key || hasKey key cs

/-- Overwrite, in place, the value field of the first card whose key
matches. -/
def overwriteFirst (key : String) (field : List Char) : List Card → List Card
  | [] => []
  | c :: cs =>
    if c.key = key then { c with field := field } :: cs
    else c :: overwriteFirst key field cs

/-- Remove the first card satisfying `p`, shifting all subsequent cards one
slot earlier (relative order preserved). -/
def delFirst (p : Card → Bool) : List Card → List Card
  | [] => []
  | c :: cs => if p c then cs else c :: delFirst p cs

/-- Modelled from the spec: HeaderCodec `put` over a raw value field.  If the
key is present, overwrite its card's value field in place provided the new
encoding fits the fixed width; if absent, append a new card immediately
before the END card provided capacity allows one more record; otherwise fail
with `CapacityExceeded`.  Returns the C-style pair of status code and
(possibly updated) buffer. -/
def hput_field (b : HBuf) (key : String) (field : List Char) : Option HErr × HBuf :=
  if valueWidth < field.length then (some HErr.CapacityExceeded, b)
  else if hasKey key b.cards then
    (none, { b with cards := overwriteFirst key field b.cards })
  else if b.cards.length + 1 < b.capacity then
    (none, { b with cards := b.cards ++ [⟨key, field⟩] })
  else (some HErr.CapacityExceeded, b)

/-- Modelled from the spec: HeaderCodec `delete` — remove the first card with
the given key, shifting subsequent cards (including END) one slot earlier. -/
def hdel (b : HBuf) (key : String) : HBuf :=
  { b with cards := delFirst (fun c => c.key = key) b.cards }

/-- Reduce an integer into the range of a `w`-bit two's-complement type,
modelling C's conversion to a narrower signed integer type. -/
def wrapI (w : Nat) (v : Int) : Int :=
  (v + 2 ^ (w - 1)) % 2 ^ w - 2 ^ (w - 1)

/-- Reduce a natural number modulo `2 ^ w`, modelling C's conversion to a
`w`-bit unsigned integer type. -/
def wrapN (w : Nat) (n : Nat) : Nat := n % 2 ^ w

/-- Modelled from the spec: HeaderCodec `get` typed as a signed `w`-bit
integer — linear scan, base-10 ASCII decode, malformed card treated as
absent. -/
def hgetIW (w : Nat) (b : HBuf) (key : String) : Option Int :=
  ((findCard key b.cards).bind (fun c => intDec c.field)).map (wrapI w)

/-- Modelled from the spec: HeaderCodec `get` typed as an unsigned `w`-bit
integer. -/
def hgetUW (w : Nat) (b : HBuf) (key : String) : Option Nat :=
  ((findCard key b.cards).bind (fun c => natDec c.field)).map (wrapN w)

/-- Modelled from the spec: HeaderCodec `get` for a fixed-precision decimal
(float) value, represented by its integer significand at the format's fixed
scale. -/
def hgetRW (b : HBuf) (key : String) : Option Int :=
  (findCard key b.cards).bind (fun c => intDec c.field)

/-- Sufficient precondition for the codec `put` to succeed: the encoding
fits the fixed value-field width and either the key is already present (an
in-place overwrite) or the buffer has room to append one more card. -/
def putOk (b : HBuf) (key : String) (field : List Char) : Prop :=
  field.length ≤ valueWidth ∧
    (hasKey key b.cards = true ∨ b.cards.length + 1 < b.capacity)

instance (b : HBuf) (key : String) (field : List Char) :
    Decidable (putOk b key field) := by
  unfold putOk
  infer_instance

theorem findCard_overwriteFirst (key : String) (field : List Char) :
    ∀ l : List Card, hasKey key l = true →
      (findCard key (overwriteFirst key field l)).map Card.field = some field := by
  intro l
  induction l with
  | nil => intro h; simp [hasKey] at h
  | cons c cs ih =>
    intro h
    by_cases hc : c.key = key
    · simp [overwriteFirst, hc, findCard]
    · have hcs : hasKey key cs = true := by
        simp [hasKey, hc] at h
        simpa using h
      simp [overwriteFirst, hc, findCard, ih hcs]

theorem findCard_append_self (key : String) (field : List Char) :
    ∀ l : List Card, hasKey key l = false →
      findCard key (l ++ [⟨key, field⟩]) = some ⟨key, field⟩ := by
  intro l
  induction l with
  | nil => intro _; simp [findCard]
  | cons c cs ih =>
    intro h
    have hc : ¬(c.key = key) := by
      intro hc
      simp [hasKey, hc] at h
    have hcs : hasKey key cs = false := by
      simp [hasKey, hc] at h
      simpa using h
    simp [findCard, hc, ih hcs]

theorem hput_field_ok {b : HBuf} {key : String} {field : List Char}
    (h : putOk b key field) :
    (hput_field b key field).1 = none ∧
      (findCard key (hput_field b key field).2.cards).map Card.field = some field := by
  obtain ⟨h1, h2⟩ := h
  have hw : ¬(valueWidth < field.length) := by omega
  by_cases hk : hasKey key b.cards = true
  · refine ⟨?_, ?_⟩ <;> simp only [hput_field, if_neg hw, if_pos hk]
    exact findCard_overwriteFirst key field b.cards hk
  · have hk' : hasKey key b.cards = false := by
      simpa using hk
    have hroom : b.cards.length + 1 < b.capacity := by
      rcases h2 with h2 | h2
      · exact absurd h2 hk
      · exact h2
    refine ⟨?_, ?_⟩ <;>
      simp only [hput_field, if_neg hw, hk', Bool.false_eq_true, if_false,
        if_pos hroom]
    rw [findCard_append_self key field b.cards hk']
    rfl

theorem hput_field_err_unchanged {b : HBuf} {key : String} {field : List Char}
    {e : HErr} (h : (hput_field b key field).1 = some e) :
    (hput_field b key field).2 = b := by
  unfold hput_field at h ⊢
  by_cases hw : valueWidth < field.length
  · simp [hw]
  · by_cases hk : hasKey key b.cards = true
    · simp [hw, hk] at h
    · by_cases hroom : b.cards.length + 1 < b.capacity
      · simp [hw, hk, hroom] at h
      · simp [hw, hk, hroom]

theorem hput_field_ok_length {b : HBuf} {key : String} {field : List Char}
    (h : (hput_field b key field).1 = none) : field.length ≤ valueWidth := by
  unfold hput_field at h
  by_cases hw : valueWidth < field.length
  · simp [hw] at h
  · omega

/-- Number of live cards carrying `key`. -/
def countKey (key : String) (l : List Card) : Nat :=
  (l.filter (fun c => c.key = key)).length

theorem findCard_eq_none_of_countKey_zero {key : String} :
    ∀ {l : List Card}, countKey key l = 0 → findCard key l = none := by
  intro l
  induction l with
  | nil => intro _; rfl
  | cons c cs ih =>
    intro h
    by_cases hc : c.key = key
    · simp [countKey, List.filter_cons, hc] at h
    · have hcs : countKey key cs = 0 := by
        simpa [countKey, List.filter_cons, hc] using h
      simp [findCard, hc, ih hcs]

theorem findCard_delFirst_eq_none {key : String} :
    ∀ {l : List Card}, countKey key l ≤ 1 →
      findCard key (delFirst (fun c => decide (c.key = key)) l) = none := by
  intro l
  induction l with
  | nil => intro _; rfl
  | cons c cs ih =>
    intro h
    by_cases hc : c.key = key
    · have hz : countKey key cs = 0 := by
        simp [countKey, List.filter_cons, hc] at h
        simpa [countKey] using h
      have hd : delFirst (fun c => decide (c.key = key)) (c :: cs) = cs := by
        simp [delFirst, hc]
      rw [hd]
      exact findCard_eq_none_of_countKey_zero hz
    · have hcs : countKey key cs ≤ 1 := by
        simpa [countKey, List.filter_cons, hc] using h
      have hd : delFirst (fun c => decide (c.key = key)) (c :: cs) =
          c :: delFirst (fun c => decide (c.key = key)) cs := by
        simp [delFirst, hc]
      rw [hd]
      simp [findCard, hc, ih hcs]

theorem wrapI_eq_self {w : Nat} {v : Int} (hw : 1 ≤ w)
    (h1 : -(2 ^ (w - 1) : Int) ≤ v) (h2 : v < 2 ^ (w - 1)) : wrapI w v = v := by
  unfold wrapI
  have hsplit : (2 : Int) ^ w = 2 ^ (w - 1) * 2 := by
    rw [← pow_succ]
    congr 1
    omega
  rw [hsplit, Int.emod_eq_of_lt (by omega) (by omega)]
  omega

theorem wrapN_eq_self {w : Nat} {n : Nat} (h : n < 2 ^ w) : wrapN w n = n := by
  simp [wrapN, Nat.mod_eq_of_lt h]

/-- Ruby-level error kinds surfaced by the binding (each one is raised as an
exception by the C code; the embedding returns it as a status value). -/
inductive RbErr where
  | AlreadyAttached
  | NotAttached
  | NotFound
  | AttachFailed
  | DetachFailed
  | LockError
  | UnlockError
  | CapacityExceeded
deriving DecidableEq, Repr

/-- The `hashpipe_status_t` struct as kept by the binding: an instance id and
the buffer pointer, `none` when detached (`s->buf == NULL`). -/
structure HStatus where
  instance_id : Int
  buf : Option HBuf
deriving DecidableEq, Repr

/-- The external IPC layer's primitives, as consumed by the binding:
`hashpipe_status_exists`, `hashpipe_status_attach` (open-or-create; `none`
models a nonzero return code), `hashpipe_status_detach`,
`hashpipe_status_lock` and `hashpipe_status_unlock` (`true` models a zero
return code). -/
structure Env where
  exists_id : Int → Bool
  attachPrim : Int → Option HBuf
  detachPrim : HBuf → Bool
  lockPrim : HBuf → Bool
  unlockPrim : HBuf → Bool

/-- Embedded from `rb_hps_exists`: `Status.exists?(instance_id)`. -/
def rb_hps_exists (env : Env) (id : Int) : Bool := env.exists_id id

/-- Embedded from `rb_hps_attach`.  `vcreate = none` models the one-argument
call (`create` defaulted), `some b` the explicit two-argument call.  Returns
the raised error (if any), the resulting struct state, and whether the IPC
layer's open-or-create primitive was invoked.  The source order is: the
create=false/nonexistent check raises `ENOENT` first, then the
ensure-detached check raises "already attached", then the blocking attach
runs and its failure raises before `memcpy` publishes the new state. -/
def rb_hps_attach (env : Env) (s : HStatus) (id : Int) (vcreate : Option Bool) :
    Option RbErr × HStatus × Bool :=
  if vcreate = some false ∧ env.exists_id id = false then
    (some RbErr.NotFound, s, false)
  else if s.buf.isSome then
    (some RbErr.AlreadyAttached, s, false)
  else
    match env.attachPrim id with
    | none => (some RbErr.AttachFailed, s, true)
    | some b => (none, { instance_id := id, buf := some b }, true)

/-- Embedded from `rb_hps_detach`: no-op when `s->buf` is NULL; otherwise
calls `hashpipe_status_detach` and only clears `s->buf` when the primitive
returns 0, raising "could not detach" (state untouched) otherwise. -/
def rb_hps_detach (env : Env) (s : HStatus) : Option RbErr × HStatus :=
  match s.buf with
  | none => (none, s)
  | some b =>
    if env.detachPrim b then (none, { s with buf := none })
    else (some RbErr.DetachFailed, s)

/-- Embedded from `rb_hps_attached_p`: `attached?`. -/
def rb_hps_attached_p (s : HStatus) : Bool := s.buf.isSome

/-- Embedded from `rb_hps_instance_id`: the id when attached, else nil. -/
def rb_hps_instance_id (s : HStatus) : Option Int :=
  match s.buf with
  | none => none
  | some _ => some s.instance_id

/-- Embedded from `rb_hps_lock` (the no-block form), with the interprocess
lock modelled as the `held` flag: requires attached, then the blocking
`hashpipe_status_lock` either succeeds (lock now held) or raises
"lock error". -/
def rb_hps_lock (env : Env) (s : HStatus) (held : Bool) :
    Option RbErr × HStatus × Bool :=
  match s.buf with
  | none => (some RbErr.NotAttached, s, held)
  | some b =>
    if env.lockPrim b then (none, s, true)
    else (some RbErr.LockError, s, held)

/-- Embedded from `rb_hps_unlock`: requires attached, then
`hashpipe_status_unlock` either succeeds (lock released) or raises
"unlock error". -/
def rb_hps_unlock (env : Env) (s : HStatus) (held : Bool) :
    Option RbErr × HStatus × Bool :=
  match s.buf with
  | none => (some RbErr.NotAttached, s, held)
  | some b =>
    if env.unlockPrim b then (none, s, false)
    else (some RbErr.UnlockError, s, held)

/-- Embedded from `rb_hps_lock` when a block is given: after a successful
lock the C code runs `rb_ensure(rb_yield, self, rb_hps_unlock, self)`, so the
unlock runs after the block on every exit path and the block's outcome (value
or raised error of type `ε`) propagates unless the unlock itself raises.
The body's eventual outcome is passed in as `body`; the result carries the
propagated outcome, whether the lock is held at exit, and whether the unlock
was invoked. -/
def rb_hps_lock_block {ε α : Type} (env : Env) (s : HStatus)
    (body : Except ε α) : Except (Sum RbErr ε) α × Bool × Bool :=
  match s.buf with
  | none => (Except.error (Sum.inl RbErr.NotAttached), false, false)
  | some b =>
    if env.lockPrim b then
      match body with
      | Except.ok a =>
        if env.unlockPrim b then (Except.ok a, false, true)
        else (Except.error (Sum.inl RbErr.UnlockError), true, true)
      | Except.error e =>
        if env.unlockPrim b then (Except.error (Sum.inr e), false, true)
        else (Except.error (Sum.inl RbErr.UnlockError), true, true)
    else (Except.error (Sum.inl RbErr.LockError), false, false)

/-- Embedded from `rb_hps_clear_bang`: requires attached, then
`hashpipe_status_clear` resets the buffer to a single END card at offset 0
(the clear locks internally; the lock state is unchanged on return). -/
def rb_hps_clear_bang (s : HStatus) : Option RbErr × HStatus :=
  match s.buf with
  | none => (some RbErr.NotAttached, s)
  | some b => (none, { s with buf := some { b with cards := [] } })

/-- Embedded from `rb_hps_length`: requires attached, returns
`gethlength(s->buf)` — the byte offset just past the END card. -/
def rb_hps_length (s : HStatus) : Option RbErr × Option Nat :=
  match s.buf with
  | none => (some RbErr.NotAttached, none)
  | some b => (none, some ((b.cards.length + 1) * RECORD_SIZE))

/-- Embedded from `rb_hps_buf`: requires attached, returns the live region
of the buffer (here: its card records). -/
def rb_hps_buf (s : HStatus) : Option RbErr × Option (List Card) :=
  match s.buf with
  | none => (some RbErr.NotAttached, none)
  | some b => (none, some b.cards)

/-- Embedded from the `HGET(i2, short, INT2FIX)` expansion `rb_hps_hgeti2`:
requires attached, runs the codec scan/decode, yields the value as a C
`short`, or nil when the key is absent or the card malformed. -/
def rb_hps_hgeti2 (s : HStatus) (key : String) : Option RbErr × Option Int :=
  match s.buf with
  | none => (some RbErr.NotAttached, none)
  | some b => (none, hgetIW 16 b key)

/-- Embedded from the `HGET(i4, int, INT2NUM)` expansion `rb_hps_hgeti4`. -/
def rb_hps_hgeti4 (s : HStatus) (key : String) : Option RbErr × Option Int :=
  match s.buf with
  | none => (some RbErr.NotAttached, none)
  | some b => (none, hgetIW 32 b key)

/-- Embedded from the `HGET(i8, long long, LL2NUM)` expansion
`rb_hps_hgeti8`. -/
def rb_hps_hgeti8 (s : HStatus) (key : String) : Option RbErr × Option Int :=
  match s.buf with
  | none => (some RbErr.NotAttached, none)
  | some b => (none, hgetIW 64 b key)

/-- Embedded from the `HGET(u4, unsigned int, UINT2NUM)` expansion
`rb_hps_hgetu4`. -/
def rb_hps_hgetu4 (s : HStatus) (key : String) : Option RbErr × Option Nat :=
  match s.buf with
  | none => (some RbErr.NotAttached, none)
  | some b => (none, hgetUW 32 b key)

/-- Embedded from the `HGET(u8, unsigned long long, ULL2NUM)` expansion
`rb_hps_hgetu8`. -/
def rb_hps_hgetu8 (s : HStatus) (key : String) : Option RbErr × Option Nat :=
  match s.buf with
  | none => (some RbErr.NotAttached, none)
  | some b => (none, hgetUW 64 b key)

/-- Embedded from the `HGET(r4, float, DBL2NUM)` expansion `rb_hps_hgetr4`;
the fixed-precision decimal value is carried as its integer significand. -/
def rb_hps_hgetr4 (s : HStatus) (key : String) : Option RbErr × Option Int :=
  match s.buf with
  | none => (some RbErr.NotAttached, none)
  | some b => (none, hgetRW b key)

/-- Embedded from the `HGET(r8, double, DBL2NUM)` expansion `rb_hps_hgetr8`. -/
def rb_hps_hgetr8 (s : HStatus) (key : String) : Option RbErr × Option Int :=
  match s.buf with
  | none => (some RbErr.NotAttached, none)
  | some b => (none, hgetRW b key)

/-- Embedded from `rb_hps_hgets`: requires attached, calls the codec's
`hgets` with `HASHPIPE_STATUS_RECORD_SIZE` as the maximum width, then forces
a terminator at byte `RECORD_SIZE - 1` before building the Ruby string, so
the result never reaches `RECORD_SIZE` characters. -/
def rb_hps_hgets (s : HStatus) (key : String) : Option RbErr × Option String :=
  match s.buf with
  | none => (some RbErr.NotAttached, none)
  | some b =>
    (none, (findCard key b.cards).map
      (fun c => String.mk ((strRender c.field).take (RECORD_SIZE - 1))))

/-- Embedded from `rb_hps_delete`: reads the current string rendering via
`rb_hps_hgets` (whose attached check is the one that raises when detached),
and only when a value was found calls the codec's `hdel`.  Returns the raised
error (if any), the prior value (the Ruby return value), and the resulting
state. -/
def rb_hps_delete (s : HStatus) (key : String) :
    Option RbErr × Option String × HStatus :=
  match rb_hps_hgets s key with
  | (some e, _) => (some e, none, s)
  | (none, none) => (none, none, s)
  | (none, some v) =>
    match s.buf with
    | none => (some RbErr.NotAttached, none, s)
    | some b => (none, some v, { s with buf := some (hdel b key) })

/-- Embedded from the `HPUT(i2, short, NUM2INT)` expansion `rb_hps_hputi2`:
the Ruby value is converted with `(short)NUM2INT`, the codec `hputi2` runs,
and its return code is discarded — the method returns `self`
unconditionally. -/
def rb_hps_hputi2 (s : HStatus) (key : String) (v : Int) :
    Option RbErr × HStatus :=
  match s.buf with
  | none => (some RbErr.NotAttached, s)
  | some b => (none, { s with buf := some (hput_field b key (intEnc (wrapI 16 v))).2 })

/-- Embedded from the `HPUT(i4, int, NUM2INT)` expansion `rb_hps_hputi4`;
the codec return code is discarded. -/
def rb_hps_hputi4 (s : HStatus) (key : String) (v : Int) :
    Option RbErr × HStatus :=
  match s.buf with
  | none => (some RbErr.NotAttached, s)
  | some b => (none, { s with buf := some (hput_field b key (intEnc (wrapI 32 v))).2 })

/-- Embedded from the `HPUT(i8, long long, NUM2LL)` expansion
`rb_hps_hputi8`; the codec return code is discarded. -/
def rb_hps_hputi8 (s : HStatus) (key : String) (v : Int) :
    Option RbErr × HStatus :=
  match s.buf with
  | none => (some RbErr.NotAttached, s)
  | some b => (none, { s with buf := some (hput_field b key (intEnc (wrapI 64 v))).2 })

/-- Embedded from the `HPUT(u4, unsigned int, NUM2UINT)` expansion
`rb_hps_hputu4`; the codec return code is discarded. -/
def rb_hps_hputu4 (s : HStatus) (key : String) (v : Nat) :
    Option RbErr × HStatus :=
  match s.buf with
  | none => (some RbErr.NotAttached, s)
  | some b => (none, { s with buf := some (hput_field b key (natEnc (wrapN 32 v))).2 })

/-- Embedded from the `HPUT(u8, unsigned long long, NUM2ULL)` expansion
`rb_hps_hputu8`; the codec return code is discarded. -/
def rb_hps_hputu8 (s : HStatus) (key : String) (v : Nat) :
    Option RbErr × HStatus :=
  match s.buf with
  | none => (some RbErr.NotAttached, s)
  | some b => (none, { s with buf := some (hput_field b key (natEnc (wrapN 64 v))).2 })

/-- Embedded from the `HPUT(r4, float, NUM2DBL)` expansion `rb_hps_hputr4`;
the fixed-precision decimal value is carried as its integer significand and
the codec return code is discarded. -/
def rb_hps_hputr4 (s : HStatus) (key : String) (v : Int) :
    Option RbErr × HStatus :=
  match s.buf with
  | none => (some RbErr.NotAttached, s)
  | some b => (none, { s with buf := some (hput_field b key (intEnc v)).2 })

/-- Embedded from the `HPUT(r8, double, NUM2DBL)` expansion `rb_hps_hputr8`;
the codec return code is discarded. -/
def rb_hps_hputr8 (s : HStatus) (key : String) (v : Int) :
    Option RbErr × HStatus :=
  match s.buf with
  | none => (some RbErr.NotAttached, s)
  | some b => (none, { s with buf := some (hput_field b key (intEnc v)).2 })

/-- Embedded from `rb_hps_hputs`: requires attached, runs the codec `hputs`,
and — unlike the numeric puts — checks the return code, raising
"header length exceeded" when the codec reports that the header length was
exceeded. -/
def rb_hps_hputs (s : HStatus) (key : String) (v : String) :
    Option RbErr × HStatus :=
  match s.buf with
  | none => (some RbErr.NotAttached, s)
  | some b =>
    let r := hput_field b key (strEnc v)
    ((r.1).map (fun _ => RbErr.CapacityExceeded), { s with buf := some r.2 })

theorem findCard_after_put {b : HBuf} {key : String} {f : List Char}
    (hok : putOk b key f) :
    ∃ c : Card, findCard key (hput_field b key f).2.cards = some c ∧
      c.field = f := by
  obtain ⟨-, hfind⟩ := hput_field_ok hok
  cases hfc : findCard key (hput_field b key f).2.cards with
  | none => rw [hfc] at hfind; simp at hfind
  | some c =>
    rw [hfc] at hfind
    simp at hfind
    exact ⟨c, rfl, hfind⟩

theorem hgetIW_after_put (w : Nat) {b : HBuf} {key : String} {v : Int}
    (hok : putOk b key (intEnc v)) :
    hgetIW w (hput_field b key (intEnc v)).2 key = some (wrapI w v) := by
  obtain ⟨c, hfc, hcf⟩ := findCard_after_put hok
  simp [hgetIW, hfc, hcf, intDec_intEnc]

theorem hgetUW_after_put (w : Nat) {b : HBuf} {key : String} {v : Nat}
    (hok : putOk b key (natEnc v)) :
    hgetUW w (hput_field b key (natEnc v)).2 key = some (wrapN w v) := by
  obtain ⟨c, hfc, hcf⟩ := findCard_after_put hok
  simp [hgetUW, hfc, hcf, natDec_natEnc]

theorem hgetRW_after_put {b : HBuf} {key : String} {v : Int}
    (hok : putOk b key (intEnc v)) :
    hgetRW (hput_field b key (intEnc v)).2 key = some v := by
  obtain ⟨c, hfc, hcf⟩ := findCard_after_put hok
  simp [hgetRW, hfc, hcf, intDec_intEnc]

theorem strEnc_data_short {v : String} (h : (strEnc v).length ≤ valueWidth) :
    v.data.length ≤ RECORD_SIZE - 1 := by
  have h2 := length_le_esc v.data
  simp only [strEnc, List.length_cons, List.length_append,
    List.length_singleton] at h
  simp only [valueWidth] at h
  simp only [RECORD_SIZE]
  omega

theorem hgets_after_put {b : HBuf} {key : String} {v : String}
    (hok : putOk b key (strEnc v)) :
    (findCard key (hput_field b key (strEnc v)).2.cards).map
      (fun c => String.mk ((strRender c.field).take (RECORD_SIZE - 1)))
      = some v := by
  obtain ⟨c, hfc, hcf⟩ := findCard_after_put hok
  have hshort : v.data.length ≤ RECORD_SIZE - 1 := strEnc_data_short hok.1
  rw [hfc]
  show some (String.mk ((strRender c.field).take (RECORD_SIZE - 1))) = some v
  rw [hcf, strRender_strEnc, take_of_le_length v.data (RECORD_SIZE - 1) hshort]

/-- A buffer with room for more cards, and a handle attached to it. -/
def bEmpty : HBuf := { cards := [], capacity := 10 }

/-- A handle attached to `bEmpty` for instance id 7. -/
def sEmpty : HStatus := { instance_id := 7, buf := some bEmpty }

/-- A buffer whose capacity is exhausted: its single slot is taken by the
END card, so no new card can be appended. -/
def fullBuf : HBuf := { cards := [], capacity := 1 }

/-- A handle attached to the exhausted buffer `fullBuf`. -/
def sFull : HStatus := { instance_id := 0, buf := some fullBuf }

/-- A detached handle. -/
def sDet : HStatus := { instance_id := 0, buf := none }

/-- An IPC environment in which every primitive succeeds. -/
def envAllOk : Env :=
  { exists_id := fun _ => true
    attachPrim := fun _ => some bEmpty
    detachPrim := fun _ => true
    lockPrim := fun _ => true
    unlockPrim := fun _ => true }

/-- An IPC environment in which no segment exists and every primitive
fails. -/
def envNone : Env :=
  { exists_id := fun _ => false
    attachPrim := fun _ => none
    detachPrim := fun _ => false
    lockPrim := fun _ => false
    unlockPrim := fun _ => false }

/-- C4 counterexample: on an attached handle, `attach(99, create=false)` when
no segment exists for id 99 fails with `NotFound`, not `AlreadyAttached`
(the create=false check precedes the ensure-detached check), so the claim
"attach on an already-attached handle fails with AlreadyAttached" is false
as stated. -/
theorem C4_attach_already_attached_counterexample :
    rb_hps_attached_p sEmpty = true ∧
    rb_hps_attach envNone sEmpty 99 (some false) =
      (some RbErr.NotFound, sEmpty, false) ∧
    (rb_hps_attach envNone sEmpty 99 (some false)).1 ≠
      some RbErr.AlreadyAttached := by
  decide

/-- C4 (amended): `attach` on an already-attached handle leaves the existing
attachment intact (struct state unchanged, IPC attach primitive not
invoked) and fails — with `NotFound` when `create=false` was passed and no
segment exists for the requested id, and with `AlreadyAttached` in every
other case. -/
theorem C4_attach_already_attached (env : Env) (s : HStatus) (id : Int)
    (vcreate : Option Bool) (h : s.buf.isSome = true) :
    (rb_hps_attach env s id vcreate).2.1 = s ∧
    (rb_hps_attach env s id vcreate).2.2 = false ∧
    ((vcreate = some false ∧ env.exists_id id = false) →
      (rb_hps_attach env s id vcreate).1 = some RbErr.NotFound) ∧
    (¬(vcreate = some false ∧ env.exists_id id = false) →
      (rb_hps_attach env s id vcreate).1 = some RbErr.AlreadyAttached) := by
  by_cases hc : vcreate = some false ∧ env.exists_id id = false
  · simp [rb_hps_attach, hc]
  · simp [rb_hps_attach, hc, h]

/-- C4 witness: a concrete already-attached handle; the default-create call
fails with `AlreadyAttached` and the state is untouched. -/
theorem C4_attach_already_attached_witness :
    (rb_hps_attach envAllOk sEmpty 9 none).2.1 = sEmpty ∧
    (rb_hps_attach envAllOk sEmpty 9 none).1 = some RbErr.AlreadyAttached := by
  refine ⟨(C4_attach_already_attached envAllOk sEmpty 9 none (by decide)).1, ?_⟩
  exact (C4_attach_already_attached envAllOk sEmpty 9 none (by decide)).2.2.2
    (by decide)

/-- C5: for any id with no existing segment, `attach(id, create=false)`
fails with `NotFound`, returns the state unchanged, and never invokes the
IPC layer's open-or-create primitive (third component `false`). -/
theorem C5_attach_nocreate_notfound (env : Env) (s : HStatus) (id : Int)
    (h : env.exists_id id = false) :
    rb_hps_attach env s id (some false) = (some RbErr.NotFound, s, false) := by
  simp [rb_hps_attach, h]

/-- C5 witness: concrete detached handle, nonexistent id 99. -/
theorem C5_attach_nocreate_notfound_witness :
    rb_hps_attach envNone sDet 99 (some false) =
      (some RbErr.NotFound, sDet, false) :=
  C5_attach_nocreate_notfound envNone sDet 99 (by decide)

/-- C6: `detach` on a detached handle is a successful no-op; on an attached
handle whose IPC release primitive reports an error it fails with
`DetachFailed` and leaves the handle attached (state unchanged). -/
theorem C6_detach_noop_and_failure (env : Env) (s : HStatus) :
    (s.buf = none → rb_hps_detach env s = (none, s)) ∧
    (∀ b : HBuf, s.buf = some b → env.detachPrim b = false →
      rb_hps_detach env s = (some RbErr.DetachFailed, s)) := by
  constructor
  · intro h
    simp [rb_hps_detach, h]
  · intro b hb hp
    simp [rb_hps_detach, hb, hp]

/-- C6 witness: the no-op on a concrete detached handle and the failing
release on a concrete attached handle. -/
theorem C6_detach_noop_and_failure_witness :
    rb_hps_detach envAllOk sDet = (none, sDet) ∧
    rb_hps_detach envNone sEmpty = (some RbErr.DetachFailed, sEmpty) :=
  ⟨(C6_detach_noop_and_failure envAllOk sDet).1 rfl,
    (C6_detach_noop_and_failure envNone sEmpty).2 bEmpty rfl (by decide)⟩

/-- C10: in `attach` the create=false/nonexistent check precedes the
already-attached check, so on an attached handle with `create=false` and no
segment for the id the failure is `NotFound`, not `AlreadyAttached`, and the
existing attachment is intact. -/
theorem C10_notfound_precedes_already_attached (env : Env) (s : HStatus)
    (id : Int) (b : HBuf) (_hb : s.buf = some b)
    (h : env.exists_id id = false) :
    (rb_hps_attach env s id (some false)).1 = some RbErr.NotFound ∧
    (rb_hps_attach env s id (some false)).1 ≠ some RbErr.AlreadyAttached ∧
    (rb_hps_attach env s id (some false)).2.1 = s := by
  simp [rb_hps_attach, h]

/-- C10 witness: concrete attached handle, nonexistent id. -/
theorem C10_notfound_precedes_already_attached_witness :
    (rb_hps_attach envNone sEmpty 99 (some false)).1 = some RbErr.NotFound ∧
    (rb_hps_attach envNone sEmpty 99 (some false)).1 ≠
      some RbErr.AlreadyAttached ∧
    (rb_hps_attach envNone sEmpty 99 (some false)).2.1 = sEmpty :=
  C10_notfound_precedes_already_attached envNone sEmpty 99 bEmpty rfl
    (by decide)

/-- C7: on a handle that is not attached, every operation other than
`attach`/`attached?`/`instance_id`/`exists?` — lock, unlock, clear!, length,
buf, every typed get and put, and delete — fails with `NotAttached` and
leaves all state (struct and lock flag) unchanged. -/
theorem C7_not_attached_ops_fail (env : Env) (s : HStatus) (held : Bool)
    (key : String) (vi : Int) (vn : Nat) (vs : String) (h : s.buf = none) :
    rb_hps_lock env s held = (some RbErr.NotAttached, s, held) ∧
    rb_hps_unlock env s held = (some RbErr.NotAttached, s, held) ∧
    rb_hps_clear_bang s = (some RbErr.NotAttached, s) ∧
    rb_hps_length s = (some RbErr.NotAttached, none) ∧
    rb_hps_buf s = (some RbErr.NotAttached, none) ∧
    rb_hps_hgeti2 s key = (some RbErr.NotAttached, none) ∧
    rb_hps_hgeti4 s key = (some RbErr.NotAttached, none) ∧
    rb_hps_hgeti8 s key = (some RbErr.NotAttached, none) ∧
    rb_hps_hgetu4 s key = (some RbErr.NotAttached, none) ∧
    rb_hps_hgetu8 s key = (some RbErr.NotAttached, none) ∧
    rb_hps_hgetr4 s key = (some RbErr.NotAttached, none) ∧
    rb_hps_hgetr8 s key = (some RbErr.NotAttached, none) ∧
    rb_hps_hgets s key = (some RbErr.NotAttached, none) ∧
    rb_hps_hputi2 s key vi = (some RbErr.NotAttached, s) ∧
    rb_hps_hputi4 s key vi = (some RbErr.NotAttached, s) ∧
    rb_hps_hputi8 s key vi = (some RbErr.NotAttached, s) ∧
    rb_hps_hputu4 s key vn = (some RbErr.NotAttached, s) ∧
    rb_hps_hputu8 s key vn = (some RbErr.NotAttached, s) ∧
    rb_hps_hputr4 s key vi = (some RbErr.NotAttached, s) ∧
    rb_hps_hputr8 s key vi = (some RbErr.NotAttached, s) ∧
    rb_hps_hputs s key vs = (some RbErr.NotAttached, s) ∧
    rb_hps_delete s key = (some RbErr.NotAttached, none, s) := by
  refine ⟨?_, ?_, ?_, ?_, ?_, ?_, ?_, ?_, ?_, ?_, ?_, ?_, ?_, ?_, ?_, ?_,
    ?_, ?_, ?_, ?_, ?_, ?_⟩ <;>
    simp [rb_hps_lock, rb_hps_unlock, rb_hps_clear_bang, rb_hps_length,
      rb_hps_buf, rb_hps_hgeti2, rb_hps_hgeti4, rb_hps_hgeti8,
      rb_hps_hgetu4, rb_hps_hgetu8, rb_hps_hgetr4, rb_hps_hgetr8,
      rb_hps_hgets, rb_hps_hputi2, rb_hps_hputi4, rb_hps_hputi8,
      rb_hps_hputu4, rb_hps_hputu8, rb_hps_hputr4, rb_hps_hputr8,
      rb_hps_hputs, rb_hps_delete, h]

/-- C7 witness: the concrete detached handle. -/
theorem C7_not_attached_ops_fail_witness :
    rb_hps_lock envAllOk sDet false = (some RbErr.NotAttached, sDet, false) ∧
    rb_hps_delete sDet "NPKTS" = (some RbErr.NotAttached, none, sDet) := by
  refine ⟨?_, ?_⟩
  · exact (C7_not_attached_ops_fail envAllOk sDet false "NPKTS" 0 0 ""
      rfl).1
  · exact (C7_not_attached_ops_fail envAllOk sDet false "NPKTS" 0 0 ""
      rfl).2.2.2.2.2.2.2.2.2.2.2.2.2.2.2.2.2.2.2.2.2

/-- A buffer holding one card `NPKTS = 5`, and a handle attached to it. -/
def bOne : HBuf := { cards := [⟨"NPKTS", intEnc 5⟩], capacity := 10 }

/-- A handle attached to `bOne` for instance id 3. -/
def sOne : HStatus := { instance_id := 3, buf := some bOne }

/-- C8: the scoped lock form on an attached handle whose lock and unlock
primitives succeed always invokes the unlock after the body (every exit
path), leaves the lock released, and propagates the body's outcome — its
value on normal return, its error on failure. -/
theorem C8_scoped_lock_releases_and_propagates (env : Env) (s : HStatus)
    (b : HBuf) {ε α : Type} (body : Except ε α) (hb : s.buf = some b)
    (hl : env.lockPrim b = true) (hu : env.unlockPrim b = true) :
    (rb_hps_lock_block env s body).2.2 = true ∧
    (rb_hps_lock_block env s body).2.1 = false ∧
    (∀ a : α, body = Except.ok a →
      (rb_hps_lock_block env s body).1 = Except.ok a) ∧
    (∀ e : ε, body = Except.error e →
      (rb_hps_lock_block env s body).1 = Except.error (Sum.inr e)) := by
  cases body <;> simp [rb_hps_lock_block, hb, hl, hu]

/-- C8 witness: a concrete attached handle and succeeding primitives; for a
body returning 42 the lock ends released, the unlock ran, and 42 is
returned. -/
theorem C8_scoped_lock_witness :
    (rb_hps_lock_block envAllOk sEmpty
      (Except.ok 42 : Except Unit Int)).2.2 = true ∧
    (rb_hps_lock_block envAllOk sEmpty
      (Except.ok 42 : Except Unit Int)).2.1 = false ∧
    (rb_hps_lock_block envAllOk sEmpty
      (Except.ok 42 : Except Unit Int)).1 = Except.ok 42 := by
  refine ⟨(C8_scoped_lock_releases_and_propagates envAllOk sEmpty bEmpty
      (Except.ok 42 : Except Unit Int) rfl rfl rfl).1,
    (C8_scoped_lock_releases_and_propagates envAllOk sEmpty bEmpty
      (Except.ok 42 : Except Unit Int) rfl rfl rfl).2.1,
    (C8_scoped_lock_releases_and_propagates envAllOk sEmpty bEmpty
      (Except.ok 42 : Except Unit Int) rfl rfl rfl).2.2.1 42 rfl⟩

theorem length_take_le (l : List Char) : ∀ n : Nat, (l.take n).length ≤ n := by
  induction l with
  | nil => intro n; simp
  | cons c cs ih =>
    intro n
    cases n with
    | zero => simp
    | succ m =>
      simp only [List.take_succ_cons, List.length_cons]
      exact Nat.succ_le_succ (ih m)

/-- C9: on an attached handle, `hgets` returns either absent or a string
obtained by truncating the rendered value field to `RECORD_SIZE - 1`
characters (the forced terminator at byte `RECORD_SIZE - 1`), so the result
is always strictly shorter than the record size. -/
theorem C9_hgets_result_short (s : HStatus) (b : HBuf) (key : String)
    (hb : s.buf = some b) :
    (rb_hps_hgets s key).2 = none ∨
    ∃ r : String, (rb_hps_hgets s key).2 = some r ∧
      r.length < RECORD_SIZE ∧
      ∃ c : Card, findCard key b.cards = some c ∧
        r.data = (strRender c.field).take (RECORD_SIZE - 1) := by
  cases hfc : findCard key b.cards with
  | none =>
    left
    simp [rb_hps_hgets, hb, hfc]
  | some c =>
    right
    refine ⟨String.mk ((strRender c.field).take (RECORD_SIZE - 1)), ?_, ?_,
      c, rfl, rfl⟩
    · simp [rb_hps_hgets, hb, hfc]
    · show ((strRender c.field).take (RECORD_SIZE - 1)).length < RECORD_SIZE
      have h1 := length_take_le (strRender c.field) (RECORD_SIZE - 1)
      simp only [RECORD_SIZE] at h1 ⊢
      omega

/-- C9 witness: the concrete one-card buffer; the rendered value of `NPKTS`
comes back as a string shorter than the record size. -/
theorem C9_hgets_result_short_witness :
    (rb_hps_hgets sOne "NPKTS").2 = none ∨
    ∃ r : String, (rb_hps_hgets sOne "NPKTS").2 = some r ∧
      r.length < RECORD_SIZE ∧
      ∃ c : Card, findCard "NPKTS" bOne.cards = some c ∧
        r.data = (strRender c.field).take (RECORD_SIZE - 1) :=
  C9_hgets_result_short sOne bOne "NPKTS" rfl

/-- C3: with at most one live card for the key (the buffer's key-uniqueness
invariant), `delete` on a present key succeeds, returns the prior string
rendering, and leaves a buffer in which the key is absent for every get;
`delete` on an absent key returns absent and leaves the state unchanged. -/
theorem C3_delete_present_absent (s : HStatus) (b : HBuf) (key : String)
    (hb : s.buf = some b) (huniq : countKey key b.cards ≤ 1) :
    ((rb_hps_hgets s key).2 = none → rb_hps_delete s key = (none, none, s)) ∧
    (∀ v : String, (rb_hps_hgets s key).2 = some v →
      rb_hps_delete s key =
        (none, some v, { s with buf := some (hdel b key) }) ∧
      (rb_hps_hgets { s with buf := some (hdel b key) } key).2 = none ∧
      findCard key (hdel b key).cards = none) := by
  have h1 : (rb_hps_hgets s key).1 = none := by simp [rb_hps_hgets, hb]
  have hdelfind : findCard key (hdel b key).cards = none := by
    have := findCard_delFirst_eq_none huniq
    simpa [hdel] using this
  constructor
  · intro h2
    have hg : rb_hps_hgets s key = (none, none) := by
      rcases hE : rb_hps_hgets s key with ⟨e, o⟩
      rw [hE] at h1 h2
      simp only at h1 h2
      rw [h1, h2]
    unfold rb_hps_delete
    rw [hg]
  · intro v h2
    have hg : rb_hps_hgets s key = (none, some v) := by
      rcases hE : rb_hps_hgets s key with ⟨e, o⟩
      rw [hE] at h1 h2
      simp only at h1 h2
      rw [h1, h2]
    refine ⟨?_, ?_, hdelfind⟩
    · unfold rb_hps_delete
      rw [hg]
      simp [hb]
    · simp [rb_hps_hgets, hdelfind]

/-- C3 witness: deleting `NPKTS` from the concrete one-card buffer returns
the prior rendering "5" and a subsequent get is absent. -/
theorem C3_delete_present_absent_witness :
    rb_hps_delete sOne "NPKTS" =
      (none, some "5", { sOne with buf := some (hdel bOne "NPKTS") }) ∧
    (rb_hps_hgets { sOne with buf := some (hdel bOne "NPKTS") } "NPKTS").2
      = none := by
  have h := (C3_delete_present_absent sOne bOne "NPKTS" rfl (by decide)).2
    "5" (by decide)
  exact ⟨h.1, h.2.1⟩

/-- C1: the numeric put path ignores the codec's error code.  On the
concrete exhausted buffer the codec `put` reports `CapacityExceeded`, yet
`rb_hps_hputi4` returns success with the buffer unchanged, while the string
put `rb_hps_hputs` on the same buffer does surface the error with the
buffer unchanged — the `HPUT` macro assigns `rc` and never checks it,
unlike `rb_hps_hputs`. -/
theorem C1_numeric_put_swallows_capacity_error :
    (hput_field fullBuf "NPKTS" (intEnc (wrapI 32 5))).1 =
      some HErr.CapacityExceeded ∧
    rb_hps_hputi4 sFull "NPKTS" 5 = (none, sFull) ∧
    rb_hps_hputs sFull "NPKTS" "x" = (some RbErr.CapacityExceeded, sFull) := by
  decide

/-- C2 counterexample: on the exhausted buffer, the encoding of 5 fits the
fixed value-field width and the handle is attached, yet
`put_i32("NPKTS", 5)` followed by `get_i32("NPKTS")` does not return 5 —
the claim's precondition omits the append-capacity requirement. -/
theorem C2_roundtrip_counterexample :
    (intEnc (wrapI 32 5)).length ≤ valueWidth ∧
    rb_hps_attached_p sFull = true ∧
    (rb_hps_hgeti4 (rb_hps_hputi4 sFull "NPKTS" 5).2 "NPKTS").2 ≠ some 5 := by
  decide

/-- C2 (amended): for every supported type, every key and every in-range
value whose encoding fits the fixed value-field width, provided the codec
put can succeed (the key is already present, or the buffer has room to
append one more card), put followed by get on an attached handle returns
exactly the value put. -/
theorem C2_put_get_roundtrip (s : HStatus) (b : HBuf) (key : String)
    (hb : s.buf = some b) :
    (∀ v : Int, -(2 ^ 15) ≤ v → v < 2 ^ 15 → putOk b key (intEnc v) →
      (rb_hps_hgeti2 (rb_hps_hputi2 s key v).2 key).2 = some v) ∧
    (∀ v : Int, -(2 ^ 31) ≤ v → v < 2 ^ 31 → putOk b key (intEnc v) →
      (rb_hps_hgeti4 (rb_hps_hputi4 s key v).2 key).2 = some v) ∧
    (∀ v : Int, -(2 ^ 63) ≤ v → v < 2 ^ 63 → putOk b key (intEnc v) →
      (rb_hps_hgeti8 (rb_hps_hputi8 s key v).2 key).2 = some v) ∧
    (∀ v : Nat, v < 2 ^ 32 → putOk b key (natEnc v) →
      (rb_hps_hgetu4 (rb_hps_hputu4 s key v).2 key).2 = some v) ∧
    (∀ v : Nat, v < 2 ^ 64 → putOk b key (natEnc v) →
      (rb_hps_hgetu8 (rb_hps_hputu8 s key v).2 key).2 = some v) ∧
    (∀ v : Int, putOk b key (intEnc v) →
      (rb_hps_hgetr4 (rb_hps_hputr4 s key v).2 key).2 = some v) ∧
    (∀ v : Int, putOk b key (intEnc v) →
      (rb_hps_hgetr8 (rb_hps_hputr8 s key v).2 key).2 = some v) ∧
    (∀ v : String, putOk b key (strEnc v) →
      (rb_hps_hgets (rb_hps_hputs s key v).2 key).2 = some v) := by
  refine ⟨?_, ?_, ?_, ?_, ?_, ?_, ?_, ?_⟩
  · intro v hlo hhi hok
    have hw : wrapI 16 v = v := wrapI_eq_self (by omega) (by omega) (by omega)
    calc (rb_hps_hgeti2 (rb_hps_hputi2 s key v).2 key).2
        = hgetIW 16 (hput_field b key (intEnc v)).2 key := by
          simp [rb_hps_hputi2, rb_hps_hgeti2, hb, hw]
      _ = some (wrapI 16 v) := hgetIW_after_put 16 hok
      _ = some v := by rw [hw]
  · intro v hlo hhi hok
    have hw : wrapI 32 v = v := wrapI_eq_self (by omega) (by omega) (by omega)
    calc (rb_hps_hgeti4 (rb_hps_hputi4 s key v).2 key).2
        = hgetIW 32 (hput_field b key (intEnc v)).2 key := by
          simp [rb_hps_hputi4, rb_hps_hgeti4, hb, hw]
      _ = some (wrapI 32 v) := hgetIW_after_put 32 hok
      _ = some v := by rw [hw]
  · intro v hlo hhi hok
    have hw : wrapI 64 v = v := wrapI_eq_self (by omega) (by omega) (by omega)
    calc (rb_hps_hgeti8 (rb_hps_hputi8 s key v).2 key).2
        = hgetIW 64 (hput_field b key (intEnc v)).2 key := by
          simp [rb_hps_hputi8, rb_hps_hgeti8, hb, hw]
      _ = some (wrapI 64 v) := hgetIW_after_put 64 hok
      _ = some v := by rw [hw]
  · intro v hhi hok
    have hw : wrapN 32 v = v := wrapN_eq_self (by omega)
    calc (rb_hps_hgetu4 (rb_hps_hputu4 s key v).2 key).2
        = hgetUW 32 (hput_field b key (natEnc v)).2 key := by
          simp [rb_hps_hputu4, rb_hps_hgetu4, hb, hw]
      _ = some (wrapN 32 v) := hgetUW_after_put 32 hok
      _ = some v := by rw [hw]
  · intro v hhi hok
    have hw : wrapN 64 v = v := wrapN_eq_self (by omega)
    calc (rb_hps_hgetu8 (rb_hps_hputu8 s key v).2 key).2
        = hgetUW 64 (hput_field b key (natEnc v)).2 key := by
          simp [rb_hps_hputu8, rb_hps_hgetu8, hb, hw]
      _ = some (wrapN 64 v) := hgetUW_after_put 64 hok
      _ = some v := by rw [hw]
  · intro v hok
    calc (rb_hps_hgetr4 (rb_hps_hputr4 s key v).2 key).2
        = hgetRW (hput_field b key (intEnc v)).2 key := by
          simp [rb_hps_hputr4, rb_hps_hgetr4, hb]
      _ = some v := hgetRW_after_put hok
  · intro v hok
    calc (rb_hps_hgetr8 (rb_hps_hputr8 s key v).2 key).2
        = hgetRW (hput_field b key (intEnc v)).2 key := by
          simp [rb_hps_hputr8, rb_hps_hgetr8, hb]
      _ = some v := hgetRW_after_put hok
  · intro v hok
    calc (rb_hps_hgets (rb_hps_hputs s key v).2 key).2
        = (findCard key (hput_field b key (strEnc v)).2.cards).map
            (fun c => String.mk ((strRender c.field).take (RECORD_SIZE - 1)))
          := by simp [rb_hps_hputs, rb_hps_hgets, hb]
      _ = some v := hgets_after_put hok

/-- C2 witness: put 42 as i32 under key NPKTS into the roomy empty buffer
and get it back. -/
theorem C2_put_get_roundtrip_witness :
    (rb_hps_hgeti4 (rb_hps_hputi4 sEmpty "NPKTS" 42).2 "NPKTS").2 =
      some 42 :=
  (C2_put_get_roundtrip sEmpty bEmpty "NPKTS" rfl).2.1 42 (by decide)
    (by decide) (by decide)
